import Mathlib

/-!
Shallow embedding of the xv6-derived checksummed write-ahead log
(`src/xv6/log.c`) and proofs about its commit, recovery, admission and
log-write (absorption) paths.

Modelling conventions:
* A disk block is a byte function `Nat → Nat`; a disk maps block numbers to
  blocks.  The buffer cache is write-through and transparent, so `bread`
  returns the current disk block and `bwrite` updates the disk; every
  `bread`/`bwrite` is recorded as a `read`/`write` event in an event trace.
* C `uint` arithmetic is `Nat` with an explicit `% 2 ^ 32` where the 32-bit
  wrap matters; `uchar` stores truncate with `% 256`.  `outstanding` is `Int`
  (a C `int` compared against `1`), and signed guards such as
  `log.size - 1 - 1` are computed in `Int`.
* `panic` is modelled as `Except.error` carrying the panic message (for
  `log_write`) or as an `Option`/`Bool` distinction (for `initlog` and the
  checksum verification inside `commit`).
* The constants `BSIZE`, `LOGSIZE` and `MAXOPBLOCKS` come from headers that
  are not part of this repository, so every definition is parameterised over
  them instead of fixing their values.
-/

namespace XV6Log

/-- A disk block: the byte stored at each intra-block offset. -/
abbrev Block : Type := Nat → Nat

/-- The disk: a block for every block number (one device). -/
abbrev Disk : Type := Nat → Block

/-- A disk-I/O event: `bread` of a block number or `bwrite` of one. -/
inductive Ev : Type where
  | read : Nat → Ev
  | write : Nat → Ev
deriving DecidableEq, Repr

/-- `struct logheader`: count `n` and the array of staged home block numbers
(the array is modelled as a function; capacity `LOGSIZE` is enforced by the
guards of `log_write`, as in the C source). -/
structure LogHeader : Type where
  n : Nat
  block : Nat → Nat

/-- `struct log` (the lock itself is not part of the state; lock-held facts
are returned explicitly where a claim needs them). -/
structure LogState : Type where
  start : Nat
  size : Nat
  outstanding : Int
  committing : Bool
  checksum : Nat
  lh : LogHeader

/-- 2^32, the modulus of C `uint` arithmetic. -/
def U32 : Nat := 2 ^ 32

/-- `bwrite`: replace one block of the disk. -/
def bwriteD (d : Disk) (bno : Nat) (b : Block) : Disk :=
  fun x => if x = bno then b else d x

/-- The 32-bit little-endian value in bytes 0..3 of a block, as read by
`(buf->data[0]) + (buf->data[1]<<8) + (buf->data[2]<<16) + (buf->data[3]<<24)`
into a `uint`. -/
def read32 (b : Block) : Nat :=
  (b 0 + b 1 * 2 ^ 8 + b 2 * 2 ^ 16 + b 3 * 2 ^ 24) % U32

/-- Byte `k` of the 32-bit little-endian encoding of `v`. -/
def le32byte (v k : Nat) : Nat := v / 2 ^ (8 * k) % 256

/-- One block's contribution to the additive checksum:
`for (j = 0; j < BSIZE; j++) checksum += (j+1)*data[j]`. -/
def blockSum (BSIZE : Nat) (b : Block) : Nat :=
  ((List.range BSIZE).map fun j => (j + 1) * b j).sum

/-- The checksum loop shared by `write_checksum`, `check_checksum` and
`recover_from_log`: sum `blockSum` over blocks `start + i + off` for
`i < n` in `uint` arithmetic, then reduce `% BSIZE`.  The write/verify
routines use `off = 1` (`log.start+i+1`); recovery uses `off = 2`
(`log.start+i+1+1`). -/
def logChecksum (BSIZE : Nat) (d : Disk) (start n off : Nat) : Nat :=
  ((List.range n).map fun i => blockSum BSIZE (d (start + i + off))).sum % U32 % BSIZE

/-- Store a checksum into bytes 0..3 of a block, little-endian, leaving the
other bytes of the buffer as they were (`check_block->data[0..3] = ...`). -/
def storeChecksum (b : Block) (ck : Nat) : Block :=
  fun j =>
    if j = 0 then ck % 256
    else if j = 1 then ck / 2 ^ 8 % 256
    else if j = 2 then ck / 2 ^ 16 % 256
    else if j = 3 then ck / 2 ^ 24 % 256
    else b j

/-- The header block produced by `write_head`: `hb->n = log.lh.n` and
`hb->block[i] = log.lh.block[i]` for `i < n` are serialized as 32-bit
little-endian fields at byte offsets `0` and `4 + 4*i`; the rest of the
buffer keeps its previous on-disk contents (read-modify-write). -/
def writeHeadBlock (old : Block) (n : Nat) (blocks : Nat → Nat) : Block :=
  fun j =>
    if j < 4 then le32byte n j
    else if j < 4 + 4 * n then le32byte (blocks (j / 4 - 1)) (j % 4)
    else old j

/-- The header count `lh->n` read back from a header block (the 32-bit field
at offset 0, read as an unsigned value). -/
def decodeN (b : Block) : Nat := read32 b

/-- The staged block number `lh->block[i]` read back from a header block. -/
def decodeEntry (b : Block) (i : Nat) : Nat :=
  (b (4 + 4 * i) + b (5 + 4 * i) * 2 ^ 8 + b (6 + 4 * i) * 2 ^ 16 +
    b (7 + 4 * i) * 2 ^ 24) % U32

/-- `read_head`: read the header block into the in-memory header. -/
def read_head (s : LogState) (d : Disk) : LogState × List Ev :=
  let b := d (s.start + 1)
  let n := decodeN b
  ({ s with
      lh := { n := n,
              block := fun i => if i < n then decodeEntry b i else s.lh.block i } },
   [Ev.read (s.start + 1)])

/-- `write_head`: write the in-memory header to the header block
(`bread` then `bwrite` of block `start+1`). -/
def write_head (s : LogState) (d : Disk) : Disk × List Ev :=
  (bwriteD d (s.start + 1) (writeHeadBlock (d (s.start + 1)) s.lh.n s.lh.block),
   [Ev.read (s.start + 1), Ev.write (s.start + 1)])

/-- `install_trans`: for each staged index `tail < n`, read log block
`start+tail+1+1` and the destination block, copy, and write the destination. -/
def install_trans (s : LogState) (d : Disk) : Disk × List Ev :=
  (List.range s.lh.n).foldl
    (fun acc tail =>
      (bwriteD acc.1 (s.lh.block tail) (acc.1 (s.start + tail + 2)),
       acc.2 ++ [Ev.read (s.start + tail + 2), Ev.read (s.lh.block tail),
                 Ev.write (s.lh.block tail)]))
    (d, [])

/-- `write_log`: for each staged index `tail < n`, read log block
`start+tail+1+1` and the cached home block, copy, and write the log block. -/
def write_log (s : LogState) (d : Disk) : Disk × List Ev :=
  (List.range s.lh.n).foldl
    (fun acc tail =>
      (bwriteD acc.1 (s.start + tail + 2) (acc.1 (s.lh.block tail)),
       acc.2 ++ [Ev.read (s.start + tail + 2), Ev.read (s.lh.block tail),
                 Ev.write (s.start + tail + 2)]))
    (d, [])

/-- `write_checksum`: checksum blocks `start+i+1` for `i < n`, record it in
`log.checksum`, store it into bytes 0..3 of the checksum block `start`, and
re-read the checksum block (the test read at the end of the C routine). -/
def write_checksum (BSIZE : Nat) (s : LogState) (d : Disk) :
    LogState × Disk × List Ev :=
  let ck := logChecksum BSIZE d s.start s.lh.n 1
  ({ s with checksum := ck },
   bwriteD d s.start (storeChecksum (d s.start) ck),
   ((List.range s.lh.n).map fun i => Ev.read (s.start + i + 1)) ++
     [Ev.read s.start, Ev.write s.start, Ev.read s.start])

/-- `check_checksum`: recompute over blocks `start+i+1` and compare with
`log.checksum`; returns the `check` flag (1 = match). -/
def check_checksum (BSIZE : Nat) (s : LogState) (d : Disk) : Bool × List Ev :=
  (s.checksum == logChecksum BSIZE d s.start s.lh.n 1,
   (List.range s.lh.n).map fun i => Ev.read (s.start + i + 1))

/-- The tail of `commit` after `check_checksum` returned `ck`: on a match,
`write_head` (the real commit), `install_trans`, `log.lh.n = 0`, `write_head`
again; on a mismatch, `panic("log checksum has a missmatch")`, modelled as
`none` with no further I/O. -/
def commitAfterCheck (s : LogState) (d : Disk) (ck : Bool) :
    Option (LogState × Disk) × List Ev :=
  if ck then
    let hd1 := write_head s d
    let ins := install_trans s hd1.1
    let s1 : LogState := { s with lh := { s.lh with n := 0 } }
    let hd2 := write_head s1 ins.1
    (some (s1, hd2.1), hd1.2 ++ ins.2 ++ hd2.2)
  else (none, [])

/-- `commit`: nothing at all when `log.lh.n = 0`; otherwise `write_log`,
`write_checksum`, `check_checksum`, then `commitAfterCheck`. -/
def commit (BSIZE : Nat) (s : LogState) (d : Disk) :
    Option (LogState × Disk) × List Ev :=
  if 0 < s.lh.n then
    let wl := write_log s d
    let wc := write_checksum BSIZE s wl.1
    let cc := check_checksum BSIZE wc.1 wc.2.1
    let rest := commitAfterCheck wc.1 wc.2.1 cc.1
    (rest.1, wl.2 ++ wc.2.2 ++ cc.2 ++ rest.2)
  else (some (s, d), [])

/-- `recover_from_log`: read the stored checksum from bytes 0..3 of block
`start`, recompute over blocks `start+i+1+1` for `i < log.lh.n` (the
in-memory count), and on a match `read_head`, `install_trans`, truncate and
`write_head`; on a mismatch only print and return. -/
def recover_from_log (BSIZE : Nat) (s : LogState) (d : Disk) :
    LogState × Disk × List Ev :=
  let disk_check := read32 (d s.start)
  let checksum := logChecksum BSIZE d s.start s.lh.n 2
  let trR := Ev.read s.start ::
    ((List.range s.lh.n).map fun i => Ev.read (s.start + i + 2))
  if disk_check = checksum then
    let rh := read_head s d
    let ins := install_trans rh.1 d
    let s1 : LogState := { rh.1 with lh := { rh.1.lh with n := 0 } }
    let wh := write_head s1 ins.1
    (s1, wh.1, trR ++ rh.2 ++ ins.2 ++ wh.2)
  else (s, d, trR)

/-- The in-memory log state at entry to `initlog`'s call of
`recover_from_log`: the C global `struct log log` is zero-initialized, and
`initlog` has set `start`, `size`, `dev` and `checksum = 0`; in particular
`lh.n = 0` because no header has been read from disk yet. -/
def bootState (logstart nlog : Nat) : LogState :=
  { start := logstart, size := nlog, outstanding := 0, committing := false,
    checksum := 0, lh := { n := 0, block := fun _ => 0 } }

/-- `initlog`: `panic` (here `none`) when `sizeof(struct logheader) >= BSIZE`
(with 4-byte ints and no padding, `sizeof = 4 + 4*LOGSIZE`); otherwise run
`recover_from_log` on the zero-initialized boot state. -/
def initlog (BSIZE LOGSIZE logstart nlog : Nat) (d : Disk) :
    Option (LogState × Disk × List Ev) :=
  if 4 + 4 * LOGSIZE ≥ BSIZE then none
  else some (recover_from_log BSIZE (bootState logstart nlog) d)

/-- Result of one evaluation of the `begin_op` loop body at a wakeup:
either go back to sleep, or admit with the updated state, recording whether
the lock is still held at return. -/
inductive BeginRes : Type where
  | sleep : BeginRes
  | admitted : LogState → Bool → BeginRes

/-- One iteration of `begin_op`'s `while(1)` body, evaluated on the state
observed after (re)acquiring the lock: sleep while `log.committing` or while
`log.lh.n + (log.outstanding+1)*MAXOPBLOCKS > LOGSIZE-2`; otherwise increment
`outstanding`, release the lock and return. -/
def begin_op_step (LOGSIZE MAXOPBLOCKS : Nat) (s : LogState) : BeginRes :=
  if s.committing then BeginRes.sleep
  else if (LOGSIZE : Int) - 2 <
      (s.lh.n : Int) + (s.outstanding + 1) * (MAXOPBLOCKS : Int) then
    BeginRes.sleep
  else BeginRes.admitted { s with outstanding := s.outstanding + 1 } false

/-- `begin_op` as a function of the sequence of states it observes at
successive wakeups: it re-checks the admission conditions on each observed
state, admitting at the first state that passes; `none` means it is still
blocked after all the observed wakeups. -/
def begin_op (LOGSIZE MAXOPBLOCKS : Nat) : List LogState → Option (LogState × Bool)
  | [] => none
  | s :: rest =>
    match begin_op_step LOGSIZE MAXOPBLOCKS s with
    | BeginRes.sleep => begin_op LOGSIZE MAXOPBLOCKS rest
    | BeginRes.admitted s1 held => some (s1, held)

/-- The staged transaction: the block numbers `lh.block[0..n-1]`. -/
def staged (lh : LogHeader) : List Nat := (List.range lh.n).map lh.block

/-- The absorption scan of `log_write`:
`for (i = 0; i < log.lh.n; i++) if (log.lh.block[i] == b->blockno) break;`
yields the first staged index holding `bno`, or `n` when absent. -/
def absorbIndex (lh : LogHeader) (bno : Nat) : Nat :=
  match (List.range lh.n).find? (fun i => lh.block i == bno) with
  | some i => i
  | none => lh.n

/-- `log_write` on a buffer with home block number `bno`: `panic` if the
transaction is at capacity (`log.lh.n >= LOGSIZE || log.lh.n >= log.size-1-1`,
checked first) or if no operation is outstanding; otherwise run the
absorption scan, store `bno` at the found slot, and grow `n` only when the
scan fell through. -/
def log_write (LOGSIZE : Nat) (s : LogState) (bno : Nat) : Except String LogState :=
  if LOGSIZE ≤ s.lh.n ∨ (s.size : Int) - 2 ≤ (s.lh.n : Int) then
    Except.error "too big a transaction"
  else if s.outstanding < 1 then
    Except.error "log_write outside of trans"
  else
    let i := absorbIndex s.lh bno
    Except.ok { s with
      lh := { n := if i = s.lh.n then s.lh.n + 1 else s.lh.n,
              block := fun k => if k = i then bno else s.lh.block k } }

/-- `log_write` repeated `N` times with the same block number (a caller
re-recording one block within a transaction). -/
def logWriteIter (LOGSIZE : Nat) : Nat → LogState → Nat → Except String LogState
  | 0, s, _ => Except.ok s
  | N + 1, s, bno =>
    match log_write LOGSIZE s bno with
    | Except.ok s1 => logWriteIter LOGSIZE N s1 bno
    | Except.error e => Except.error e

/-- `log_write` folded over a list of block numbers (staging a whole
transaction), stopping at the first `panic`. -/
def stageAll (LOGSIZE : Nat) : List Nat → LogState → Except String LogState
  | [], s => Except.ok s
  | b :: rest, s =>
    match log_write LOGSIZE s b with
    | Except.ok s1 => stageAll LOGSIZE rest s1
    | Except.error e => Except.error e

/-! ## Helper lemmas about the absorption scan and `log_write` -/

theorem absorbIndex_mem (lh : LogHeader) (bno : Nat) (h : bno ∈ staged lh) :
    absorbIndex lh bno < lh.n ∧ lh.block (absorbIndex lh bno) = bno := by
  unfold absorbIndex
  obtain ⟨i, hi, hbi⟩ := List.mem_map.mp h
  have hex : ∃ x ∈ List.range lh.n, (fun i => lh.block i == bno) x = true :=
    ⟨i, hi, by simp [hbi]⟩
  have hsome : ((List.range lh.n).find? (fun i => lh.block i == bno)).isSome :=
    List.find?_isSome.mpr hex
  cases hfind : (List.range lh.n).find? (fun i => lh.block i == bno) with
  | none => rw [hfind] at hsome; simp at hsome
  | some j =>
    have hj1 := List.find?_some hfind
    have hj2 := List.mem_of_find?_eq_some hfind
    simp only [hfind]
    exact ⟨List.mem_range.mp hj2, by simpa using hj1⟩

theorem absorbIndex_not_mem (lh : LogHeader) (bno : Nat) (h : bno ∉ staged lh) :
    absorbIndex lh bno = lh.n := by
  unfold absorbIndex
  have hnone : (List.range lh.n).find? (fun i => lh.block i == bno) = none := by
    apply List.find?_eq_none.mpr
    intro i hi
    simp only [beq_iff_eq]
    intro hbi
    exact h (List.mem_map.mpr ⟨i, hi, hbi⟩)
  rw [hnone]

/-- The non-panicking branch of `log_write`, written out. -/
theorem log_write_ok (LOGSIZE : Nat) (s : LogState) (bno : Nat)
    (hL : s.lh.n < LOGSIZE) (hS : (s.lh.n : Int) < (s.size : Int) - 2)
    (hout : 1 ≤ s.outstanding) :
    log_write LOGSIZE s bno = Except.ok { s with
      lh := { n := if absorbIndex s.lh bno = s.lh.n then s.lh.n + 1 else s.lh.n,
              block := fun k => if k = absorbIndex s.lh bno then bno
                                else s.lh.block k } } := by
  unfold log_write
  rw [if_neg (by omega), if_neg (by omega)]

/-- A `log_write` of a block number already staged leaves the state exactly
as it was. -/
theorem log_write_absorbed (LOGSIZE : Nat) (s : LogState) (bno : Nat)
    (hL : s.lh.n < LOGSIZE) (hS : (s.lh.n : Int) < (s.size : Int) - 2)
    (hout : 1 ≤ s.outstanding) (hmem : bno ∈ staged s.lh) :
    log_write LOGSIZE s bno = Except.ok s := by
  obtain ⟨hlt, hblk⟩ := absorbIndex_mem s.lh bno hmem
  rw [log_write_ok LOGSIZE s bno hL hS hout]
  have hne : absorbIndex s.lh bno ≠ s.lh.n := Nat.ne_of_lt hlt
  have hback : (fun k => if k = absorbIndex s.lh bno then bno else s.lh.block k) =
      s.lh.block := by
    funext k
    by_cases hk : k = absorbIndex s.lh bno
    · subst hk; simp [hblk]
    · simp [hk]
  rcases s with ⟨st, sz, outn, com, ck, n, blk⟩
  simp_all

/-- A `log_write` of a block number not yet staged appends it at slot `n`. -/
theorem log_write_fresh (LOGSIZE : Nat) (s : LogState) (bno : Nat)
    (hL : s.lh.n < LOGSIZE) (hS : (s.lh.n : Int) < (s.size : Int) - 2)
    (hout : 1 ≤ s.outstanding) (hfresh : bno ∉ staged s.lh) :
    log_write LOGSIZE s bno = Except.ok { s with
      lh := { n := s.lh.n + 1,
              block := fun k => if k = s.lh.n then bno else s.lh.block k } } := by
  rw [log_write_ok LOGSIZE s bno hL hS hout, absorbIndex_not_mem s.lh bno hfresh]
  simp

/-- Appending at slot `n` extends the staged list by exactly that block. -/
theorem staged_snoc (lh : LogHeader) (bno : Nat) :
    staged { n := lh.n + 1,
             block := fun k => if k = lh.n then bno else lh.block k } =
      staged lh ++ [bno] := by
  unfold staged
  simp only [List.range_succ, List.map_append, List.map_cons, List.map_nil]
  congr 1
  apply List.map_congr_left
  intro k hk
  have : k ≠ lh.n := Nat.ne_of_lt (List.mem_range.mp hk)
  simp [this]

/-! ## C4: admission control -/

/-- C4: `begin_op` admits exactly when no commit is in flight and
`lh.n + (outstanding+1)*MAXOPBLOCKS > LOGSIZE-2` is false; on admission it
increments `outstanding` by one and returns holding no lock; while either
blocking condition holds it sleeps and re-checks the next observed state. -/
theorem begin_op_admission (LOGSIZE MAXOPBLOCKS : Nat) (s : LogState)
    (rest : List LogState) :
    (s.committing = false →
      (s.lh.n : Int) + (s.outstanding + 1) * (MAXOPBLOCKS : Int) ≤ (LOGSIZE : Int) - 2 →
      begin_op LOGSIZE MAXOPBLOCKS (s :: rest) =
        some ({ s with outstanding := s.outstanding + 1 }, false)) ∧
    ((s.committing = true ∨
        (LOGSIZE : Int) - 2 < (s.lh.n : Int) + (s.outstanding + 1) * (MAXOPBLOCKS : Int)) →
      begin_op LOGSIZE MAXOPBLOCKS (s :: rest) = begin_op LOGSIZE MAXOPBLOCKS rest) := by
  constructor
  · intro hc hcap
    simp only [begin_op, begin_op_step, hc, if_false, Bool.false_eq_true,
      if_neg (not_lt.mpr hcap)]
  · intro hblock
    rcases hblock with hc | hcap
    · simp only [begin_op, begin_op_step, hc, if_true]
    · simp only [begin_op, begin_op_step, if_pos hcap]
      by_cases hc : s.committing <;> simp [hc]

/-- Witness for C4 at a concrete idle state: admission succeeds and bumps
`outstanding` from 0 to 1. -/
theorem begin_op_admission_witness :
    (bootState 2 30).committing = false ∧
      ((bootState 2 30).lh.n : Int) + ((bootState 2 30).outstanding + 1) * ((10 : Nat) : Int) ≤
        ((30 : Nat) : Int) - 2 ∧
      begin_op 30 10 [bootState 2 30] =
        some ({ bootState 2 30 with outstanding := (bootState 2 30).outstanding + 1 }, false) :=
  ⟨rfl, by decide,
    (begin_op_admission 30 10 (bootState 2 30) []).1 rfl (by decide)⟩

/-! ## C8: recording outside a transaction -/

/-- C8: with `outstanding < 1`, `log_write` always panics; the specific
panic is `"log_write outside of trans"` whenever the capacity guard (which
the code checks first) does not fire; with `outstanding ≥ 1` the
outside-of-transaction branch is unreachable. -/
theorem log_write_requires_outstanding (LOGSIZE : Nat) (s : LogState) (bno : Nat) :
    (s.outstanding < 1 → ∃ msg, log_write LOGSIZE s bno = Except.error msg) ∧
    (s.outstanding < 1 →
      ¬(LOGSIZE ≤ s.lh.n ∨ (s.size : Int) - 2 ≤ (s.lh.n : Int)) →
      log_write LOGSIZE s bno = Except.error "log_write outside of trans") ∧
    (1 ≤ s.outstanding →
      log_write LOGSIZE s bno ≠ Except.error "log_write outside of trans") := by
  refine ⟨?_, ?_, ?_⟩
  · intro hout
    unfold log_write
    by_cases h1 : LOGSIZE ≤ s.lh.n ∨ (s.size : Int) - 2 ≤ (s.lh.n : Int)
    · exact ⟨"too big a transaction", by rw [if_pos h1]⟩
    · exact ⟨"log_write outside of trans", by rw [if_neg h1, if_pos hout]⟩
  · intro hout h1
    unfold log_write
    rw [if_neg h1, if_pos hout]
  · intro hout
    unfold log_write
    by_cases h1 : LOGSIZE ≤ s.lh.n ∨ (s.size : Int) - 2 ≤ (s.lh.n : Int)
    · rw [if_pos h1]; simp
    · rw [if_neg h1, if_neg (by omega)]; simp

/-- Witness for C8 at a concrete state with `outstanding = 0`. -/
theorem log_write_requires_outstanding_witness :
    (bootState 2 30).outstanding < 1 ∧
      log_write 30 (bootState 2 30) 7 = Except.error "log_write outside of trans" :=
  ⟨by decide,
    (log_write_requires_outstanding 30 (bootState 2 30) 7).2.1 (by decide) (by decide)⟩

/-! ## C9: empty commit is a no-op -/

/-- C9: with `lh.n = 0`, `commit` performs no disk reads or writes and
leaves both the in-memory log state and the whole disk unchanged. -/
theorem commit_empty_is_noop (BSIZE : Nat) (s : LogState) (d : Disk)
    (h : s.lh.n = 0) :
    commit BSIZE s d = (some (s, d), []) := by
  unfold commit
  rw [if_neg (by omega)]

/-- Constant all-zero disk used by concrete witnesses. -/
def zeroDisk : Disk := fun _ _ => 0

/-- Witness for C9 at a concrete empty transaction. -/
theorem commit_empty_is_noop_witness :
    (bootState 2 30).lh.n = 0 ∧
      commit 512 (bootState 2 30) zeroDisk = (some (bootState 2 30, zeroDisk), []) :=
  ⟨rfl, commit_empty_is_noop 512 (bootState 2 30) zeroDisk rfl⟩

/-! ## C10: the capacity guard fires before the absorption scan -/

/-- C10: once `lh.n` has reached `LOGSIZE` or `size - 2`, every `log_write`
panics with "too big a transaction" — the guard precedes the absorption
scan, so this holds for any block number, staged already or not. -/
theorem log_write_capacity_checked_first (LOGSIZE : Nat) (s : LogState) (bno : Nat)
    (hcap : LOGSIZE ≤ s.lh.n ∨ (s.size : Int) - 2 ≤ (s.lh.n : Int)) :
    log_write LOGSIZE s bno = Except.error "too big a transaction" := by
  unfold log_write
  rw [if_pos hcap]

/-- A transaction that has filled all thirty header slots. -/
def fullState : LogState :=
  { start := 2, size := 30, outstanding := 1, committing := false, checksum := 0,
    lh := { n := 30, block := fun k => k } }

/-- Witness for C10: block 5 is already staged, yet re-recording it panics. -/
theorem log_write_capacity_checked_first_witness :
    (30 ≤ fullState.lh.n ∨ (fullState.size : Int) - 2 ≤ (fullState.lh.n : Int)) ∧
      5 ∈ staged fullState.lh ∧
      log_write 30 fullState 5 = Except.error "too big a transaction" :=
  ⟨Or.inl (by decide), by decide,
    log_write_capacity_checked_first 30 fullState 5 (Or.inl (by decide))⟩

/-! ## C7: recovery checksum mismatch is recoverable and writes nothing -/

/-- The mismatch branch of `recover_from_log`, written out. -/
theorem recover_from_log_mismatch (BSIZE : Nat) (s : LogState) (d : Disk)
    (h : read32 (d s.start) ≠ logChecksum BSIZE d s.start s.lh.n 2) :
    recover_from_log BSIZE s d =
      (s, d, Ev.read s.start ::
        ((List.range s.lh.n).map fun i => Ev.read (s.start + i + 2))) := by
  unfold recover_from_log
  rw [if_neg h]

/-- C7: when the recomputed checksum differs from the stored one, recovery
returns normally with the in-memory state and the entire disk unchanged, and
its event trace consists of reads only. -/
theorem recovery_mismatch_leaves_all_unchanged (BSIZE : Nat) (s : LogState) (d : Disk)
    (h : read32 (d s.start) ≠ logChecksum BSIZE d s.start s.lh.n 2) :
    recover_from_log BSIZE s d =
      (s, d, Ev.read s.start ::
        ((List.range s.lh.n).map fun i => Ev.read (s.start + i + 2))) ∧
    ∀ b, Ev.write b ∉ (recover_from_log BSIZE s d).2.2 := by
  have heq := recover_from_log_mismatch BSIZE s d h
  refine ⟨heq, ?_⟩
  rw [heq]
  intro b
  simp

/-- A disk whose checksum block stores the value 1 (and is otherwise zero). -/
def oneDisk : Disk := fun b j => if b = 2 ∧ j = 0 then 1 else 0

/-- Witness for C7: stored checksum 1 against recomputed 0. -/
theorem recovery_mismatch_witness :
    read32 (oneDisk (bootState 2 30).start) ≠
        logChecksum 512 oneDisk (bootState 2 30).start (bootState 2 30).lh.n 2 ∧
      recover_from_log 512 (bootState 2 30) oneDisk =
        (bootState 2 30, oneDisk, Ev.read (bootState 2 30).start ::
          ((List.range (bootState 2 30).lh.n).map fun i =>
            Ev.read ((bootState 2 30).start + i + 2))) :=
  ⟨by decide,
    (recovery_mismatch_leaves_all_unchanged 512 (bootState 2 30) oneDisk (by decide)).1⟩

/-! ## C5: absorption idempotence -/

/-- Once a block number is staged (and the transaction is within capacity),
re-recording it any number of times is the identity on the log state. -/
theorem logWriteIter_stable (LOGSIZE : Nat) (t : LogState) (bno : Nat)
    (hmem : bno ∈ staged t.lh) (hout : 1 ≤ t.outstanding)
    (hL : t.lh.n < LOGSIZE) (hS : (t.lh.n : Int) < (t.size : Int) - 2) :
    ∀ k, logWriteIter LOGSIZE k t bno = Except.ok t := by
  intro k
  induction k with
  | zero => rfl
  | succ k ih =>
    simp only [logWriteIter, log_write_absorbed LOGSIZE t bno hL hS hout hmem, ih]

/-- C5: recording the same block number `N ≥ 1` times within one transaction
yields exactly one staged slot for it, kept at the slot of the first
recording (the old end of the list), and `n` grows only on the first, fresh
recording — every later call returns the state unchanged. -/
theorem log_write_absorption_idempotent (LOGSIZE : Nat) (s : LogState) (bno N : Nat)
    (hN : 1 ≤ N) (hfresh : bno ∉ staged s.lh) (hout : 1 ≤ s.outstanding)
    (hL : s.lh.n + 1 < LOGSIZE) (hS : (s.lh.n : Int) + 1 < (s.size : Int) - 2) :
    (∀ t : LogState, bno ∈ staged t.lh → 1 ≤ t.outstanding →
        t.lh.n < LOGSIZE → (t.lh.n : Int) < (t.size : Int) - 2 →
        log_write LOGSIZE t bno = Except.ok t) ∧
    ∃ s1, logWriteIter LOGSIZE N s bno = Except.ok s1 ∧
      staged s1.lh = staged s.lh ++ [bno] ∧
      s1.lh.n = s.lh.n + 1 ∧
      (staged s1.lh).count bno = 1 ∧
      s1.outstanding = s.outstanding ∧ s1.size = s.size := by
  constructor
  · intro t hmem htout htL htS
    exact log_write_absorbed LOGSIZE t bno htL htS htout hmem
  · obtain ⟨M, rfl⟩ : ∃ M, N = M + 1 := ⟨N - 1, by omega⟩
    set s1 : LogState := { s with
      lh := { n := s.lh.n + 1,
              block := fun k => if k = s.lh.n then bno else s.lh.block k } } with hs1
    have hstep : log_write LOGSIZE s bno = Except.ok s1 :=
      log_write_fresh LOGSIZE s bno (by omega) (by omega) hout hfresh
    have hstaged : staged s1.lh = staged s.lh ++ [bno] := staged_snoc s.lh bno
    have hmem1 : bno ∈ staged s1.lh := by
      rw [hstaged]; exact List.mem_append_right _ (List.mem_singleton.mpr rfl)
    have hrest : logWriteIter LOGSIZE M s1 bno = Except.ok s1 :=
      logWriteIter_stable LOGSIZE s1 bno hmem1 hout (by simp [hs1]; omega)
        (by simp [hs1]; omega) M
    refine ⟨s1, ?_, hstaged, rfl, ?_, rfl, rfl⟩
    · simp only [logWriteIter, hstep, hrest]
    · rw [hstaged, List.count_append, List.count_eq_zero.mpr hfresh]
      simp

/-- A log state inside one admitted operation with an empty transaction. -/
def opState : LogState :=
  { start := 2, size := 30, outstanding := 1, committing := false, checksum := 0,
    lh := { n := 0, block := fun _ => 0 } }

/-- Witness for C5: recording block 9 three times stages it exactly once. -/
theorem log_write_absorption_idempotent_witness :
    9 ∉ staged opState.lh ∧ (1 : Nat) ≤ 3 ∧
      ∃ s1, logWriteIter 30 3 opState 9 = Except.ok s1 ∧
        staged s1.lh = staged opState.lh ++ [9] ∧
        s1.lh.n = opState.lh.n + 1 ∧
        (staged s1.lh).count 9 = 1 ∧
        s1.outstanding = opState.outstanding ∧ s1.size = opState.size :=
  ⟨by decide, by decide,
    (log_write_absorption_idempotent 30 opState 9 3 (by decide) (by decide)
      (by decide) (by decide) (by decide)).2⟩

/-! ## C6: capacity enforcement -/

/-- C6: staging a list of distinct, not-yet-staged block numbers succeeds in
full exactly while the transaction stays within `min LOGSIZE (size - 2)`
slots; the first recording beyond that limit panics with
"too big a transaction" instead of silently truncating. -/
theorem stageAll_capacity (LOGSIZE : Nat) (bs : List Nat) (s : LogState)
    (hnd : bs.Nodup) (hfresh : ∀ b ∈ bs, b ∉ staged s.lh)
    (hout : 1 ≤ s.outstanding) (hsize : 2 ≤ s.size)
    (hinv : s.lh.n ≤ min LOGSIZE (s.size - 2)) :
    (s.lh.n + bs.length ≤ min LOGSIZE (s.size - 2) →
      ∃ s1, stageAll LOGSIZE bs s = Except.ok s1 ∧
        s1.lh.n = s.lh.n + bs.length ∧ staged s1.lh = staged s.lh ++ bs) ∧
    (min LOGSIZE (s.size - 2) < s.lh.n + bs.length →
      stageAll LOGSIZE bs s = Except.error "too big a transaction") := by
  induction bs generalizing s with
  | nil =>
    refine ⟨fun _ => ⟨s, rfl, by simp, by simp⟩, fun hlt => ?_⟩
    simp only [List.length_nil, Nat.add_zero] at hlt
    omega
  | cons b rest ih =>
    by_cases hat : s.lh.n < min LOGSIZE (s.size - 2)
    · -- below the limit: the first recording appends, then recurse
      have hL : s.lh.n < LOGSIZE := lt_of_lt_of_le hat (min_le_left _ _)
      have hSnat : s.lh.n < s.size - 2 := lt_of_lt_of_le hat (min_le_right _ _)
      have hS : (s.lh.n : Int) < (s.size : Int) - 2 := by omega
      have hstep : log_write LOGSIZE s b = Except.ok { s with
          lh := { n := s.lh.n + 1,
                  block := fun k => if k = s.lh.n then b else s.lh.block k } } :=
        log_write_fresh LOGSIZE s b hL hS hout (hfresh b (List.mem_cons_self b rest))
      set s1 : LogState := { s with
        lh := { n := s.lh.n + 1,
                block := fun k => if k = s.lh.n then b else s.lh.block k } } with hs1
      have hstaged : staged s1.lh = staged s.lh ++ [b] := staged_snoc s.lh b
      have hb_not_rest : b ∉ rest := (List.nodup_cons.mp hnd).1
      have hfresh1 : ∀ b2 ∈ rest, b2 ∉ staged s1.lh := by
        intro b2 hb2
        rw [hstaged]
        intro hmem
        rcases List.mem_append.mp hmem with hmem | hmem
        · exact hfresh b2 (List.mem_cons_of_mem b hb2) hmem
        · rw [List.mem_singleton.mp hmem] at hb2
          exact hb_not_rest hb2
      have hrec := ih s1 (List.nodup_cons.mp hnd).2 hfresh1 hout hsize
        (by simp [hs1]; omega)
      constructor
      · intro hle
        obtain ⟨s2, hs2, hn2, hst2⟩ := hrec.1 (by simp [hs1]; simp at hle; omega)
        refine ⟨s2, ?_, ?_, ?_⟩
        · simp only [stageAll, hstep, hs2]
        · rw [hn2]; simp [hs1]; omega
        · rw [hst2, hstaged, List.append_assoc]; rfl
      · intro hlt
        have := hrec.2 (by simp [hs1]; simp at hlt; omega)
        simp only [stageAll, hstep, this]
    · -- at the limit already: the very next recording panics
      have hn : s.lh.n = min LOGSIZE (s.size - 2) := le_antisymm hinv (not_lt.mp hat)
      have hcap : LOGSIZE ≤ s.lh.n ∨ (s.size : Int) - 2 ≤ (s.lh.n : Int) := by
        omega
      have herr : log_write LOGSIZE s b = Except.error "too big a transaction" := by
        unfold log_write
        rw [if_pos hcap]
      refine ⟨fun hle => ?_, fun _ => ?_⟩
      · exfalso
        simp only [List.length_cons] at hle
        omega
      · simp only [stageAll, herr]

/-- Witness for C6: staging 29 distinct blocks into a 30-block region
(28 data slots) panics. -/
theorem stageAll_capacity_witness :
    (List.range 29).Nodup ∧
      min 30 (opState.size - 2) < opState.lh.n + (List.range 29).length ∧
      stageAll 30 (List.range 29) opState = Except.error "too big a transaction" :=
  ⟨List.nodup_range 29, by decide,
    (stageAll_capacity 30 (List.range 29) opState (List.nodup_range 29) (by decide)
      (by decide) (by decide) (by decide)).2 (by decide)⟩

/-! ## C3: at boot, recovery's recomputed checksum is always 0 -/

/-- The replay branch of `recover_from_log` at the boot state: its trace
contains the header-block read of `read_head` and the header-block write of
the truncating `write_head`. -/
theorem recover_boot_match_mem (BSIZE logstart nlog : Nat) (d : Disk)
    (h0 : read32 (d logstart) = 0) :
    Ev.write (logstart + 1) ∈ (recover_from_log BSIZE (bootState logstart nlog) d).2.2 ∧
      Ev.read (logstart + 1) ∈ (recover_from_log BSIZE (bootState logstart nlog) d).2.2 := by
  have hck : logChecksum BSIZE d (bootState logstart nlog).start
      (bootState logstart nlog).lh.n 2 = 0 := by
    simp [logChecksum, bootState]
  unfold recover_from_log
  rw [if_pos (by rw [hck]; exact h0)]
  constructor <;> simp [bootState, read_head, write_head, List.mem_append]

/-- C3: boot-time recovery iterates its checksum loop over the in-memory
header count, which is 0 before any header has been read, so it recomputes a
checksum of 0 for every disk; it replays (reading the on-disk header,
installing, and truncating via a header write) iff the 32-bit little-endian
value in bytes 0..3 of the checksum block is 0, independent of the log
region's data. -/
theorem boot_recovery_replays_iff_stored_zero (BSIZE LOGSIZE logstart nlog : Nat)
    (d : Disk) (hsz : 4 + 4 * LOGSIZE < BSIZE) :
    ∃ s1 d1 tr, initlog BSIZE LOGSIZE logstart nlog d = some (s1, d1, tr) ∧
      logChecksum BSIZE d logstart (bootState logstart nlog).lh.n 2 = 0 ∧
      (Ev.write (logstart + 1) ∈ tr ↔ read32 (d logstart) = 0) ∧
      (Ev.read (logstart + 1) ∈ tr ↔ read32 (d logstart) = 0) ∧
      (read32 (d logstart) ≠ 0 →
        s1 = bootState logstart nlog ∧ d1 = d ∧ tr = [Ev.read logstart]) := by
  have hck : logChecksum BSIZE d logstart (bootState logstart nlog).lh.n 2 = 0 := by
    simp [logChecksum, bootState]
  unfold initlog
  rw [if_neg (by omega)]
  set r := recover_from_log BSIZE (bootState logstart nlog) d with hr
  by_cases h0 : read32 (d logstart) = 0
  · obtain ⟨hw, hrd⟩ := recover_boot_match_mem BSIZE logstart nlog d h0
    exact ⟨r.1, r.2.1, r.2.2, rfl, hck, iff_of_true (hr ▸ hw) h0,
      iff_of_true (hr ▸ hrd) h0, fun hne => absurd h0 hne⟩
  · have hmm : read32 (d (bootState logstart nlog).start) ≠
        logChecksum BSIZE d (bootState logstart nlog).start
          (bootState logstart nlog).lh.n 2 := by
      rw [show (bootState logstart nlog).start = logstart from rfl, hck]
      exact h0
    have heq : r = (bootState logstart nlog, d, [Ev.read logstart]) := by
      rw [hr, recover_from_log_mismatch BSIZE (bootState logstart nlog) d hmm]
      simp [bootState]
    refine ⟨r.1, r.2.1, r.2.2, rfl, hck, ?_, ?_, fun _ => ?_⟩
    · rw [heq]
      exact iff_of_false (by simp) h0
    · rw [heq]
      exact iff_of_false (by simp) h0
    · rw [heq]
      exact ⟨rfl, rfl, rfl⟩

/-- Witness for C3 on the all-zero disk (stored checksum 0, so it replays). -/
theorem boot_recovery_replays_iff_stored_zero_witness :
    4 + 4 * 30 < 512 ∧
      (∃ s1 d1 tr, initlog 512 30 2 30 zeroDisk = some (s1, d1, tr) ∧
        logChecksum 512 zeroDisk 2 (bootState 2 30).lh.n 2 = 0 ∧
        (Ev.write (2 + 1) ∈ tr ↔ read32 (zeroDisk 2) = 0) ∧
        (Ev.read (2 + 1) ∈ tr ↔ read32 (zeroDisk 2) = 0) ∧
        (read32 (zeroDisk 2) ≠ 0 →
          s1 = bootState 2 30 ∧ d1 = zeroDisk ∧ tr = [Ev.read 2])) :=
  ⟨by decide, boot_recovery_replays_iff_stored_zero 512 30 2 30 zeroDisk (by decide)⟩

/-! ## C2: commit's disk writes happen in the load-bearing order -/

/-- Concatenation of per-iteration event lists. -/
def evList {α : Type} (g : α → List Ev) : List α → List Ev
  | [] => []
  | t :: l => g t ++ evList g l

/-- A disk/trace fold where each iteration's events do not depend on the
evolving disk splits into a disk-only fold and a concatenated trace. -/
theorem foldl_disk_trace {α : Type} (f : Disk → α → Disk) (g : α → List Ev) :
    ∀ (l : List α) (d : Disk) (tr : List Ev),
      l.foldl (fun acc t => (f acc.1 t, acc.2 ++ g t)) (d, tr) =
        (l.foldl f d, tr ++ evList g l)
  | [], d, tr => by simp [evList]
  | t :: l, d, tr => by
    simp only [List.foldl_cons, evList]
    rw [foldl_disk_trace f g l (f d t) (tr ++ g t)]
    simp [List.append_assoc]

/-- The disk after `write_log` alone. -/
def writeLogDisk (s : LogState) (d : Disk) : Disk :=
  (List.range s.lh.n).foldl
    (fun d1 tail => bwriteD d1 (s.start + tail + 2) (d1 (s.lh.block tail))) d

/-- The disk after `install_trans` alone. -/
def installDisk (s : LogState) (d : Disk) : Disk :=
  (List.range s.lh.n).foldl
    (fun d1 tail => bwriteD d1 (s.lh.block tail) (d1 (s.start + tail + 2))) d

/-- The event trace of `write_log`: per staged slot, read the log slot,
read the cached home block, write the log slot. -/
def flushEvs (s : LogState) : List Ev :=
  evList (fun t => [Ev.read (s.start + t + 2), Ev.read (s.lh.block t),
                    Ev.write (s.start + t + 2)]) (List.range s.lh.n)

/-- The event trace of `install_trans`: per staged slot, read the log slot,
read the home block, write the home block. -/
def installEvs (s : LogState) : List Ev :=
  evList (fun t => [Ev.read (s.start + t + 2), Ev.read (s.lh.block t),
                    Ev.write (s.lh.block t)]) (List.range s.lh.n)

/-- The reads of one checksum loop over blocks `start+i+1`. -/
def ckReadEvs (s : LogState) : List Ev :=
  (List.range s.lh.n).map fun i => Ev.read (s.start + i + 1)

theorem write_log_eq (s : LogState) (d : Disk) :
    write_log s d = (writeLogDisk s d, flushEvs s) := by
  have h := foldl_disk_trace
    (fun d1 tail => bwriteD d1 (s.start + tail + 2) (d1 (s.lh.block tail)))
    (fun t => [Ev.read (s.start + t + 2), Ev.read (s.lh.block t),
               Ev.write (s.start + t + 2)])
    (List.range s.lh.n) d []
  unfold write_log writeLogDisk flushEvs
  simpa using h

theorem install_trans_eq (s : LogState) (d : Disk) :
    install_trans s d = (installDisk s d, installEvs s) := by
  have h := foldl_disk_trace
    (fun d1 tail => bwriteD d1 (s.lh.block tail) (d1 (s.start + tail + 2)))
    (fun t => [Ev.read (s.start + t + 2), Ev.read (s.lh.block t),
               Ev.write (s.lh.block t)])
    (List.range s.lh.n) d []
  unfold install_trans installDisk installEvs
  simpa using h

/-- Overwriting the checksum block (block `start`) does not change the
checksum recomputed over blocks `start+i+1`, `i < n`. -/
theorem logChecksum_write_start (BSIZE : Nat) (d : Disk) (start n : Nat) (b : Block) :
    logChecksum BSIZE (bwriteD d start b) start n 1 = logChecksum BSIZE d start n 1 := by
  unfold logChecksum
  have hmap : (List.map (fun i => blockSum BSIZE (bwriteD d start b (start + i + 1)))
      (List.range n)) =
      List.map (fun i => blockSum BSIZE (d (start + i + 1))) (List.range n) := by
    apply List.map_congr_left
    intro i _
    have hne : start + i + 1 ≠ start := by omega
    simp [bwriteD, hne]
  rw [hmap]

/-- C2: for a non-empty transaction, `commit`'s I/O trace is exactly: the
flush of every staged block to the log region, then the checksum loop reads
and the checksum-block write (and its test read-back), then the verification
loop reads, then the header-block write (the commit point), then the install
of every logged block to its home location, then the truncating header
rewrite; the final in-memory and on-disk header say `n = 0`.  The header
write occurs only after the checksum write and its verification, and the
verification-mismatch branch of `commit` produces no further I/O at all —
in particular it never writes the header. -/
theorem commit_ordering (BSIZE : Nat) (s : LogState) (d : Disk) (h : 0 < s.lh.n) :
    (∃ s1 d1,
      commit BSIZE s d =
        (some (s1, d1),
          flushEvs s ++
            (ckReadEvs s ++ [Ev.read s.start, Ev.write s.start, Ev.read s.start]) ++
            ckReadEvs s ++
            ([Ev.read (s.start + 1), Ev.write (s.start + 1)] ++ installEvs s ++
              [Ev.read (s.start + 1), Ev.write (s.start + 1)])) ∧
      s1.lh.n = 0 ∧ read32 (d1 (s.start + 1)) = 0) ∧
    ∀ s2 d2, commitAfterCheck s2 d2 false = (none, []) := by
  refine ⟨?_, fun s2 d2 => rfl⟩
  unfold commit
  rw [if_pos h, write_log_eq]
  simp only [write_checksum, check_checksum, commitAfterCheck, write_head,
    install_trans_eq, logChecksum_write_start, beq_self_eq_true, if_true]
  refine ⟨_, _, rfl, rfl, ?_⟩
  simp [bwriteD, writeHeadBlock, read32, le32byte, U32]

/-- A one-block transaction (home block 40) about to commit. -/
def txnState : LogState :=
  { start := 2, size := 30, outstanding := 0, committing := true, checksum := 0,
    lh := { n := 1, block := fun _ => 40 } }

/-- Witness for C2 on the concrete one-block transaction. -/
theorem commit_ordering_witness :
    0 < txnState.lh.n ∧
      ∃ s1 d1,
        commit 512 txnState zeroDisk =
          (some (s1, d1),
            flushEvs txnState ++
              (ckReadEvs txnState ++
                [Ev.read txnState.start, Ev.write txnState.start, Ev.read txnState.start]) ++
              ckReadEvs txnState ++
              ([Ev.read (txnState.start + 1), Ev.write (txnState.start + 1)] ++
                installEvs txnState ++
                [Ev.read (txnState.start + 1), Ev.write (txnState.start + 1)])) ∧
        s1.lh.n = 0 ∧ read32 (d1 (txnState.start + 1)) = 0 :=
  ⟨by decide, (commit_ordering 512 txnState zeroDisk (by decide)).1⟩

/-! ## C1: boot recovery fails to validate a durably committed transaction -/

/-- A disk on which the pre-transaction header block (block 3) has a nonzero
first byte, so the commit-time checksum — which, one block off, covers block
`start+1` — is nonzero. -/
def seedDisk : Disk := fun b j => if b = 3 ∧ j = 0 then 1 else 0

/-- The disk after commit step 1 (`write_log`) for `txnState`. -/
def diskAfterFlush : Disk := (write_log txnState seedDisk).1

/-- The state and disk after commit step 2 (`write_checksum`), at the small
instantiation `BSIZE = 16` (any block size exhibits the bug; a small one
keeps the concrete evaluation cheap). -/
def wcResult : LogState × Disk × List Ev := write_checksum 16 txnState diskAfterFlush

/-- The disk after commit step 4 (`write_head`, the commit point): the
checksum block and the header block of the transaction are now both durably
on disk, exactly the crash point after which the spec requires recovery to
validate and replay the transaction. -/
def diskAfterHead : Disk := (write_head wcResult.1 wcResult.2.1).1

set_option maxRecDepth 8000 in
/-- C1 fails on the code: on `diskAfterHead` (with `BSIZE = 16`,
`LOGSIZE = 2`) the on-disk header declares `n = 1` with staged block 40 and
the on-disk checksum block holds the commit-written checksum 1, yet
boot-time recovery recomputes its checksum over the in-memory count (0) at
blocks `start+i+2` — not over the header's declared count at the blocks
`start+i+1` that `write_checksum` used — so it recomputes 0, sees a
mismatch, and abandons the committed transaction: its whole trace is the
single checksum-block read, with no header read, no install, and no
write. -/
theorem recovery_misses_committed_transaction :
    decodeN (diskAfterHead 3) = 1 ∧
      decodeEntry (diskAfterHead 3) 0 = 40 ∧
      read32 (diskAfterHead 2) = 1 ∧
      wcResult.1.checksum = 1 ∧
      (initlog 16 2 2 30 diskAfterHead).map (fun r => r.2.2) = some [Ev.read 2] := by
  refine ⟨by decide, by decide, by decide, by decide, by decide⟩

end XV6Log
